import Mathlib

/-
Verification development for the guild-central profile reconciliation engine.

The embedded program is the serve handler of
src/supabase/functions/fetch-profile/index.ts (lines 10 to 180).
Remote fetch results and record-store error outcomes are inputs; the
record store is an explicit state; every store or remote operation the
handler issues is recorded in an event trace, in program order.
-/

namespace GuildCentral

/-- Guild object of a remote payload: the fields the handler reads are
guild.name and guild.realm.slug (index.ts lines 81, 82, 138). -/
structure GuildRef where
  name : String
  realmSlug : String
deriving DecidableEq, Repr

/-- One character summary from the account-profile payload (index.ts lines
66 to 72).  The handler reads name, realm.slug, playable_class.id,
playable_race.id and level, plus the optional guild object at line 138
(absent in real account summaries; the handler guards it with optional
chaining).  The region field carried by the payload is never read: the
handler uses the configured region at line 72. -/
structure CharSummary where
  name : String
  realmSlug : String
  classId : Nat
  raceId : Nat
  level : Nat
  region : String
  guild : Option GuildRef
deriving DecidableEq, Repr

/-- One element of the wow_accounts array (index.ts lines 52 to 58).  The
characters field may be absent; an absent field is skipped by the concat
loop. -/
structure WowAccount where
  characters : Option (List CharSummary)
deriving DecidableEq, Repr

/-- Outcome of the account-profile fetch (index.ts lines 40 to 50):
status 401, any other non-ok status, or the decoded payload. -/
inductive AccountRes
  | authError
  | otherError
  | ok (accounts : List WowAccount)
deriving DecidableEq, Repr

/-- Outcome of one character-profile fetch (index.ts lines 75 to 93).
throws: the awaited fetch at line 75 rejects (a transport or network
error) or the body decode at line 79 throws; the handler has no local
handler for either, so the exception propagates to the catch at line
176 and the run aborts with the 500 response.  fail: a response was
received but is not ok, taking the warn-and-continue branch at lines 91
to 93.  ok: an ok response, with an optional guild object. -/
inductive DetailRes
  | throws
  | fail
  | ok (guild : Option GuildRef)
deriving DecidableEq, Repr

/-- A row pushed onto guildRows (index.ts lines 85 to 89). -/
structure GuildRow where
  name : String
  realm_slug : String
  region : String
deriving DecidableEq, Repr

/-- A row pushed onto charRows (index.ts lines 95 to 105); guild_id is
filled in by the linking loop (lines 130 to 151). -/
structure CharRow where
  name : String
  realm_slug : String
  region : String
  user_id : String
  level : Nat
  class_id : Nat
  race_id : Nat
  guild_id : Option Nat
deriving DecidableEq, Repr

/-- A persisted guilds row (migration table public.guilds); ids are
modelled as naturals handed out by a counter. -/
structure StoredGuild where
  id : Nat
  name : String
  realm_slug : String
  region : String
deriving DecidableEq, Repr

/-- A persisted characters row (migration table public.characters),
restricted to the columns the handler reads or writes. -/
structure StoredChar where
  name : String
  realm_slug : String
  region : String
  user_id : Option String
  guild_id : Option Nat
  level : Nat
  class_id : Nat
  race_id : Nat
deriving DecidableEq, Repr

/-- A persisted users row, restricted to the columns the handler reads
(index.ts lines 26 to 35 and 175). -/
structure UserRec where
  id : String
  battlenet_id : Int
  battletag : String
  access_token : String
deriving DecidableEq, Repr

/-- The record store: users, guilds (with a fresh-id counter), characters. -/
structure Store where
  users : List UserRec
  guilds : List StoredGuild
  nextGuildId : Nat
  chars : List StoredChar
deriving DecidableEq, Repr

/-- One remote call or store operation issued by the handler, in program
order. -/
inductive Event
  | selectUser
  | fetchAccount
  | fetchDetail (realmSlug nameLower : String)
  | upsertGuilds (rows : List GuildRow)
  | upsertChars (rows : List CharRow)
  | selectOwned (userId : String)
  | deleteChar (userId name realm_slug region : String)
deriving DecidableEq, Repr

/-- Store write operations, as opposed to reads and remote fetches. -/
def isWriteEvent : Event → Bool
  | .upsertGuilds _ => true
  | .upsertChars _ => true
  | .deleteChar _ _ _ _ => true
  | _ => false

/-- The error thrown inside the try block: a detail fetch that rejects
at line 75 (or a body decode that throws at line 79), the guild-upsert
throw at line 120, the character-upsert throw at line 156, or the
TypeError raised by the linking loop at line 142 (characterGuild.guild
is undefined there).  All of them reach the catch at line 176 and
render as the same 500 response. -/
inductive ThrownError
  | detailFetchFailed
  | guildUpsertFailed
  | charUpsertFailed
  | linkTypeError
deriving DecidableEq, Repr

/-- The response of one run, by source line: 400 at line 16, 404 at line
33, 401 at line 46, 500 at line 48, 500 at line 178 for a thrown error,
200 at line 175. -/
inductive RunResult
  | missingParam
  | userNotFound
  | unauthorized
  | upstreamFailed
  | serverError (e : ThrownError)
  | success (battletag : String) (count : Nat)
deriving DecidableEq, Repr

/-- HTTP status of each outcome. -/
def RunResult.status : RunResult → Nat
  | .missingParam => 400
  | .userNotFound => 404
  | .unauthorized => 401
  | .upstreamFailed => 500
  | .serverError _ => 500
  | .success _ _ => 200

/-- Configuration read from the environment: BLIZZARD_API_REGION
(index.ts line 8). -/
structure Config where
  region : String

/-- The inputs of one run: the two query parameters, the outcome of the
account fetch, the outcome of each character-detail fetch (as a function
of realm slug and lowercased name, the two path pieces of the request at
line 75), and injected store-failure outcomes for the guild upsert, the
character upsert and each delete. -/
structure RunInput where
  userIdParam : Option String
  battlenetIdParam : Option Int
  account : AccountRes
  detail : String → String → DetailRes
  guildUpsertError : Bool
  charUpsertError : Bool
  deleteError : String → String → String → Bool

/-- JavaScript truthiness of a nullable string parameter: null and the
empty string are falsy. -/
def truthyStr : Option String → Bool
  | none => false
  | some s => !s.isEmpty

/-- PostgREST single(): a value exactly when the filtered list has one
row (index.ts lines 31 to 34 treat an error or missing data as 404). -/
def singleRow {α : Type} : List α → Option α
  | [x] => some x
  | _ => none

/-- User lookup of index.ts lines 25 to 34: filter by id when user_id is
truthy, otherwise by battlenet_id.  The battlenet parameter is modelled
already parsed to an integer. -/
def lookupUser (users : List UserRec) (uidP : Option String) (bnetP : Option Int) :
    Option UserRec :=
  if truthyStr uidP then
    singleRow (users.filter (fun u => u.id == uidP.getD ""))
  else
    singleRow (users.filter (fun u => u.battlenet_id == bnetP.getD 0))

/-- Concatenation of the characters arrays of all wow_accounts (index.ts
lines 52 to 58). -/
def allCharsOf : List WowAccount → List CharSummary
  | [] => []
  | a :: rest =>
    (match a.characters with
     | some l => l
     | none => []) ++ allCharsOf rest

/-- The template string used as guild map key and as roster key: parts
joined by a vertical bar (index.ts lines 114, 124, 142, 161, 167). -/
def joinKey (name realm_slug region : String) : String :=
  name ++ "|" ++ realm_slug ++ "|" ++ region

/-- The name.toLowerCase() call of index.ts line 75, modelled as
character-wise lowercasing of the underlying character list. -/
def jsToLower (s : String) : String :=
  ⟨s.data.map Char.toLower⟩

/-- The charRows entry built for one summary (index.ts lines 95 to 105):
region is the configured region (line 72), guild_id starts unset. -/
def mkCharRow (cfg : Config) (uid : String) (c : CharSummary) : CharRow :=
  { name := c.name
    realm_slug := c.realmSlug
    region := cfg.region
    user_id := uid
    level := c.level
    class_id := c.classId
    race_id := c.raceId
    guild_id := none }

/-- The per-character loop of index.ts lines 66 to 106: for each summary,
fetch the character profile at path realmSlug / name.toLowerCase (line
75); on an ok response with a guild, push a guildRows entry whose region
is the configured region (lines 80 to 89); on a received non-ok
response, warn and continue (lines 91 to 93); always push a charRows
entry.  A fetch that throws aborts the loop at that character: the
exception escapes to the catch at line 176, so the loop yields only the
fetch events issued up to and including the throwing request.  On
completion it yields charRows, guildRows and the fetch events, each in
program order. -/
def buildRows (cfg : Config) (detail : String → String → DetailRes) (uid : String) :
    List CharSummary → Except (List Event) (List CharRow × List GuildRow × List Event)
  | [] => .ok ([], [], [])
  | c :: rest =>
    match detail c.realmSlug (jsToLower c.name) with
    | .throws => .error [Event.fetchDetail c.realmSlug (jsToLower c.name)]
    | .fail =>
      match buildRows cfg detail uid rest with
      | .error evs => .error (Event.fetchDetail c.realmSlug (jsToLower c.name) :: evs)
      | .ok r => .ok (mkCharRow cfg uid c :: r.1, r.2.1,
          Event.fetchDetail c.realmSlug (jsToLower c.name) :: r.2.2)
    | .ok og =>
      match buildRows cfg detail uid rest with
      | .error evs => .error (Event.fetchDetail c.realmSlug (jsToLower c.name) :: evs)
      | .ok r => .ok (mkCharRow cfg uid c :: r.1,
          (match og with
           | some gu => [{ name := gu.name, realm_slug := gu.realmSlug, region := cfg.region }]
           | none => []) ++ r.2.1,
          Event.fetchDetail c.realmSlug (jsToLower c.name) :: r.2.2)

/-- JavaScript object assignment obj[k] = v: an existing key keeps its
position and gets the new value, a new key is appended. -/
def objInsert {α : Type} (m : List (String × α)) (k : String) (v : α) :
    List (String × α) :=
  if m.any (fun p => p.1 == k) then
    m.map (fun p => if p.1 == k then (k, v) else p)
  else m ++ [(k, v)]

/-- The uniqueGuilds object of index.ts lines 112 to 117: rows keyed by
the joined key, then Object.values. -/
def dedupeGuilds (rows : List GuildRow) : List GuildRow :=
  (rows.foldl (fun m g => objInsert m (joinKey g.name g.realm_slug g.region) g) []).map
    Prod.snd

/-- Upsert of one guild row with onConflict name, realm_slug, region
(index.ts line 118): an existing row is returned unchanged, a new row
gets the next id. -/
def upsertGuildRow (st : Store) (g : GuildRow) : Store × StoredGuild :=
  match st.guilds.find?
      (fun sg => sg.name == g.name && sg.realm_slug == g.realm_slug && sg.region == g.region) with
  | some sg => (st, sg)
  | none =>
    let sg : StoredGuild :=
      { id := st.nextGuildId, name := g.name, realm_slug := g.realm_slug, region := g.region }
    ({ st with guilds := st.guilds ++ [sg], nextGuildId := st.nextGuildId + 1 }, sg)

/-- The batched guild upsert (index.ts line 118), returning the store and
the selected rows with ids, in batch order. -/
def upsertGuildsBatch : Store → List GuildRow → Store × List StoredGuild
  | st, [] => (st, [])
  | st, g :: rest =>
    let p := upsertGuildRow st g
    let q := upsertGuildsBatch p.1 rest
    (q.1, p.2 :: q.2)

/-- The guildIdMap object of index.ts lines 122 to 126. -/
def buildGuildIdMap (sgs : List StoredGuild) : List (String × Nat) :=
  sgs.foldl (fun m g => objInsert m (joinKey g.name g.realm_slug g.region) g.id) []

/-- The predicate of the inner allCharacters.find at index.ts line 138:
the summary matches the charRows entry by name and realm slug, and its
own optional guild field matches the guildRows entry by name and realm
slug.  Real account summaries carry no guild field, so the third
conjunct is false for them. -/
def summaryMatches (c : CharRow) (g : GuildRow) (ac : CharSummary) : Bool :=
  ac.name == c.name && ac.realmSlug == c.realm_slug &&
    (match ac.guild with
     | some gu => gu.name == g.name && gu.realmSlug == g.realm_slug
     | none => false)

/-- The linking loop of index.ts lines 130 to 151.  When the
guildRows.find at line 132 hits, line 142 evaluates
characterGuild.guild.name on a guildRows entry, which has no guild
field: a TypeError is thrown before guildIdMap is ever consulted, so the
map argument is dead.  When the find misses, guild_id is set to null. -/
def linkCharRows (gmap : List (String × Nat)) (allCharacters : List CharSummary)
    (guildRows : List GuildRow) :
    List CharRow → Except Unit (List CharRow)
  | [] => .ok []
  | c :: rest =>
    match guildRows.find? (fun g => allCharacters.any (summaryMatches c g)) with
    | some _ => .error ()
    | none =>
      match linkCharRows gmap allCharacters guildRows rest with
      | .error e => .error e
      | .ok rs => .ok ({ c with guild_id := none } :: rs)

/-- Does a stored row match the delete filter of index.ts line 170:
user_id, name, realm_slug and region all equal. -/
def matchesDelete (uid name realm_slug region : String) (s : StoredChar) : Bool :=
  s.user_id == some uid && s.name == name && s.realm_slug == realm_slug && s.region == region

/-- Effect of one delete().match (index.ts line 170): remove every row
matching the filter. -/
def applyDelete (chars : List StoredChar) (uid name realm_slug region : String) :
    List StoredChar :=
  chars.filter (fun s => !(matchesDelete uid name realm_slug region s))

/-- Upsert of one character row with onConflict name, realm_slug, region
(index.ts line 154): replace the written columns of a row with the same
key, else append a new row. -/
def applyCharRow (chars : List StoredChar) (r : CharRow) : List StoredChar :=
  if chars.any (fun s => s.name == r.name && s.realm_slug == r.realm_slug && s.region == r.region) then
    chars.map (fun s =>
      if s.name == r.name && s.realm_slug == r.realm_slug && s.region == r.region then
        { s with user_id := some r.user_id, guild_id := r.guild_id, level := r.level,
                 class_id := r.class_id, race_id := r.race_id }
      else s)
  else
    chars ++ [{ name := r.name, realm_slug := r.realm_slug, region := r.region,
                user_id := some r.user_id, guild_id := r.guild_id, level := r.level,
                class_id := r.class_id, race_id := r.race_id }]

/-- The batched character upsert (index.ts line 154), row by row. -/
def applyCharUpsert (chars : List StoredChar) (rows : List CharRow) : List StoredChar :=
  rows.foldl applyCharRow chars

/-- The currentCharKeys set of index.ts line 161: key per roster summary,
built from the raw payload name, the payload realm slug and the
configured region.  No case normalization is applied. -/
def rosterKeys (cfg : Config) (allCharacters : List CharSummary) : List String :=
  allCharacters.map (fun c => joinKey c.name c.realmSlug cfg.region)

/-- The cleanup loop of index.ts lines 165 to 173 over the previously
selected existing characters: for each row whose key is not in
currentCharKeys, issue a delete by owner and natural key; the delete
result is ignored, so a failed delete (injected by deleteError) leaves
the store unchanged and the loop continues. -/
def cleanupLoop (deleteError : String → String → String → Bool) (uid : String)
    (currentCharKeys : List String) :
    List StoredChar → List StoredChar → List StoredChar × List Event
  | [], chars => (chars, [])
  | e :: rest, chars =>
    if currentCharKeys.contains (joinKey e.name e.realm_slug e.region) then
      cleanupLoop deleteError uid currentCharKeys rest chars
    else
      let chars1 :=
        if deleteError e.name e.realm_slug e.region then chars
        else applyDelete chars uid e.name e.realm_slug e.region
      let r := cleanupLoop deleteError uid currentCharKeys rest chars1
      (r.1, Event.deleteChar uid e.name e.realm_slug e.region :: r.2)

/-- Tail of the run after the guild phase (index.ts lines 129 to 175):
link guild ids, upsert characters, then select the owned rows and run
the cleanup loop.  st1 is the store after the guild phase, gevs the
guild-phase events, pre the events issued before the guild phase. -/
def afterGuildsPhase (cfg : Config) (inp : RunInput) (user : UserRec)
    (allCharacters : List CharSummary) (charRows : List CharRow)
    (guildRows : List GuildRow) (guildIdMap : List (String × Nat))
    (pre : List Event) (st1 : Store) (gevs : List Event) :
    RunResult × Store × List Event :=
  match linkCharRows guildIdMap allCharacters guildRows charRows with
  | .error _ => (.serverError .linkTypeError, st1, pre ++ gevs)
  | .ok linkedRows =>
    if inp.charUpsertError then
      (.serverError .charUpsertFailed, st1, pre ++ gevs ++ [Event.upsertChars linkedRows])
    else
      let st2 : Store := { st1 with chars := applyCharUpsert st1.chars linkedRows }
      let currentCharKeys := rosterKeys cfg allCharacters
      let existingChars := st2.chars.filter (fun s => s.user_id == some user.id)
      let cl := cleanupLoop inp.deleteError user.id currentCharKeys existingChars st2.chars
      ( .success user.battletag charRows.length,
        { st2 with chars := cl.1 },
        pre ++ gevs ++ [Event.upsertChars linkedRows, Event.selectOwned user.id] ++ cl.2 )

/-- The serve handler of src/supabase/functions/fetch-profile/index.ts,
lines 10 to 180: parameter check, user lookup, account fetch, the
per-character loop (whose thrown fetch aborts the run through the catch
at line 176 before any write), the guild dedupe and batch upsert, the
linking loop, the character batch upsert, and the orphan cleanup.
Returns the response, the final store and the trace of issued
operations. -/
def fetchProfileRun (cfg : Config) (inp : RunInput) (st : Store) :
    RunResult × Store × List Event :=
  if !truthyStr inp.userIdParam && inp.battlenetIdParam.isNone then
    (.missingParam, st, [])
  else
    match lookupUser st.users inp.userIdParam inp.battlenetIdParam with
    | none => (.userNotFound, st, [.selectUser])
    | some user =>
      match inp.account with
      | .authError => (.unauthorized, st, [.selectUser, .fetchAccount])
      | .otherError => (.upstreamFailed, st, [.selectUser, .fetchAccount])
      | .ok accounts =>
        let allCharacters := allCharsOf accounts
        match buildRows cfg inp.detail user.id allCharacters with
        | .error devs =>
          (.serverError .detailFetchFailed, st, .selectUser :: .fetchAccount :: devs)
        | .ok built =>
          let charRows := built.1
          let guildRows := built.2.1
          let pre : List Event := .selectUser :: .fetchAccount :: built.2.2
          if guildRows.isEmpty then
            afterGuildsPhase cfg inp user allCharacters charRows guildRows [] pre st []
          else
            let uniqueGuilds := dedupeGuilds guildRows
            if inp.guildUpsertError then
              (.serverError .guildUpsertFailed, st, pre ++ [.upsertGuilds uniqueGuilds])
            else
              let up := upsertGuildsBatch st uniqueGuilds
              afterGuildsPhase cfg inp user allCharacters charRows guildRows
                (buildGuildIdMap up.2) pre up.1 [.upsertGuilds uniqueGuilds]

def cfgUS : Config := { region := "us" }

def thrallSummary : CharSummary :=
  { name := "Thrall", realmSlug := "icecrown", classId := 1, raceId := 2, level := 60,
    region := "us", guild := none }

def userU1 : UserRec :=
  { id := "u1", battlenet_id := 12345, battletag := "Tester", access_token := "tok" }

def st1x : Store := { users := [userU1], guilds := [], nextGuildId := 0, chars := [] }

def inp1x : RunInput :=
  { userIdParam := some "u1", battlenetIdParam := none,
    account := .ok [{ characters := some [thrallSummary] }],
    detail := fun r n =>
      if r == "icecrown" && n == "thrall" then
        .ok (some { name := "Horde Vanguard", realmSlug := "icecrown" })
      else .fail,
    guildUpsertError := false, charUpsertError := false,
    deleteError := fun _ _ _ => false }

def charA : CharSummary :=
  { name := "Aria", realmSlug := "area52", classId := 5, raceId := 1, level := 70,
    region := "us", guild := none }

def charB : CharSummary :=
  { name := "Borin", realmSlug := "area52", classId := 2, raceId := 3, level := 68,
    region := "us", guild := none }

def inp4x : RunInput :=
  { userIdParam := some "u1", battlenetIdParam := none,
    account := .ok [{ characters := some [charA, charB] }],
    detail := fun r _ =>
      if r == "area52" then .ok (some { name := "Alpha", realmSlug := "area52" })
      else .fail,
    guildUpsertError := false, charUpsertError := false,
    deleteError := fun _ _ _ => false }

def inp2x : RunInput := { inp1x with guildUpsertError := true }

/-- A detail-fetch oracle on which every character-profile request
receives a non-ok response. -/
def failDetail : String → String → DetailRes := fun _ _ => .fail

/-- A detail-fetch oracle on which every character-profile request
throws: the fetch promise rejects with a transport error. -/
def throwDetail : String → String → DetailRes := fun _ _ => .throws

def inp6c : RunInput := { inp1x with detail := throwDetail }

def inp5x : RunInput := { inp1x with account := .authError }

def inp6x : RunInput := { inp1x with detail := failDetail }

def oldRow3x : StoredChar :=
  { name := "Oldone", realm_slug := "realmx", region := "us", user_id := some "u1",
    guild_id := none, level := 10, class_id := 1, race_id := 1 }

def otherRow3x : StoredChar :=
  { name := "Foreign", realm_slug := "realmy", region := "us", user_id := some "u2",
    guild_id := none, level := 20, class_id := 2, race_id := 2 }

def st3x : Store :=
  { users := [userU1], guilds := [], nextGuildId := 0, chars := [oldRow3x, otherRow3x] }

def inp3x : RunInput := { inp1x with detail := failDetail }

def ownedRow7a : StoredChar :=
  { name := "Alpha1", realm_slug := "realmx", region := "us", user_id := some "u1",
    guild_id := none, level := 10, class_id := 1, race_id := 1 }

def ownedRow7b : StoredChar :=
  { name := "Alpha2", realm_slug := "realmx", region := "us", user_id := some "u1",
    guild_id := none, level := 11, class_id := 1, race_id := 1 }

def ownedRow7c : StoredChar :=
  { name := "Alpha3", realm_slug := "realmx", region := "us", user_id := some "u1",
    guild_id := none, level := 12, class_id := 1, race_id := 1 }

def st7x : Store :=
  { users := [userU1], guilds := [], nextGuildId := 0,
    chars := [ownedRow7a, ownedRow7b, ownedRow7c] }

def inp7x : RunInput := { inp1x with account := .ok [] }

/-- A stored row whose name is the lowercase form of the roster name
Thrall: equal natural key up to letter case, different exact key. -/
def thrallLowerRow : StoredChar :=
  { name := "thrall", realm_slug := "icecrown", region := "us", user_id := some "u1",
    guild_id := none, level := 60, class_id := 1, race_id := 2 }

def st8x : Store :=
  { users := [userU1], guilds := [], nextGuildId := 0, chars := [thrallLowerRow] }

def inp8x : RunInput := { inp1x with detail := failDetail }

def inp9x : RunInput := { inp1x with userIdParam := none, battlenetIdParam := none }

/-- Whenever the per-character loop completes, charRows is exactly the
roster mapped through mkCharRow, in order. -/
theorem buildRows_ok_fst (cfg : Config) (d : String → String → DetailRes) (uid : String) :
    ∀ (l : List CharSummary) (r : List CharRow × List GuildRow × List Event),
      buildRows cfg d uid l = .ok r → r.1 = l.map (mkCharRow cfg uid) := by
  intro l
  induction l with
  | nil =>
    intro r h
    simp only [buildRows, Except.ok.injEq] at h
    rw [← h]
    rfl
  | cons c rest ih =>
    intro r h
    unfold buildRows at h
    split at h
    · exact absurd h (by simp)
    · revert h
      match hrec : buildRows cfg d uid rest with
      | .error evs => intro h; exact absurd h (by simp)
      | .ok r2 =>
        intro h
        simp only [Except.ok.injEq] at h
        rw [← h, List.map_cons, ih r2 hrec]
    · revert h
      match hrec : buildRows cfg d uid rest with
      | .error evs => intro h; exact absurd h (by simp)
      | .ok r2 =>
        intro h
        simp only [Except.ok.injEq] at h
        rw [← h, List.map_cons, ih r2 hrec]

/-- Whenever the per-character loop completes, every event it emitted is
a detail fetch. -/
theorem buildRows_ok_events_shape (cfg : Config) (d : String → String → DetailRes)
    (uid : String) :
    ∀ (l : List CharSummary) (r : List CharRow × List GuildRow × List Event),
      buildRows cfg d uid l = .ok r →
      ∀ e ∈ r.2.2, ∃ rx n, e = Event.fetchDetail rx n := by
  intro l
  induction l with
  | nil =>
    intro r h
    simp only [buildRows, Except.ok.injEq] at h
    rw [← h]
    intro e he
    simp at he
  | cons c rest ih =>
    intro r h
    unfold buildRows at h
    split at h
    · exact absurd h (by simp)
    · revert h
      match hrec : buildRows cfg d uid rest with
      | .error evs => intro h; exact absurd h (by simp)
      | .ok r2 =>
        intro h
        simp only [Except.ok.injEq] at h
        rw [← h]
        intro e he
        rcases List.mem_cons.mp he with h2 | h2
        · exact ⟨_, _, h2⟩
        · exact ih r2 hrec e h2
    · revert h
      match hrec : buildRows cfg d uid rest with
      | .error evs => intro h; exact absurd h (by simp)
      | .ok r2 =>
        intro h
        simp only [Except.ok.injEq] at h
        rw [← h]
        intro e he
        rcases List.mem_cons.mp he with h2 | h2
        · exact ⟨_, _, h2⟩
        · exact ih r2 hrec e h2

/-- When the per-character loop aborts on a throwing fetch, every event
it emitted up to the throw is a detail fetch. -/
theorem buildRows_error_events_shape (cfg : Config) (d : String → String → DetailRes)
    (uid : String) :
    ∀ (l : List CharSummary) (evs : List Event), buildRows cfg d uid l = .error evs →
      ∀ e ∈ evs, ∃ rx n, e = Event.fetchDetail rx n := by
  intro l
  induction l with
  | nil =>
    intro evs h
    exact absurd h (by simp [buildRows])
  | cons c rest ih =>
    intro evs h
    unfold buildRows at h
    split at h
    · simp only [Except.error.injEq] at h
      intro e he
      rw [← h] at he
      simp only [List.mem_singleton] at he
      exact ⟨_, _, he⟩
    · revert h
      match hrec : buildRows cfg d uid rest with
      | .error evs2 =>
        intro h
        simp only [Except.error.injEq] at h
        intro e he
        rw [← h] at he
        rcases List.mem_cons.mp he with h2 | h2
        · exact ⟨_, _, h2⟩
        · exact ih evs2 hrec e h2
      | .ok r2 => intro h; exact absurd h (by simp)
    · revert h
      match hrec : buildRows cfg d uid rest with
      | .error evs2 =>
        intro h
        simp only [Except.error.injEq] at h
        intro e he
        rw [← h] at he
        rcases List.mem_cons.mp he with h2 | h2
        · exact ⟨_, _, h2⟩
        · exact ih evs2 hrec e h2
      | .ok r2 => intro h; exact absurd h (by simp)

/-- Whenever the per-character loop completes, every guildRows entry
carries the configured region. -/
theorem buildRows_ok_guilds_region (cfg : Config) (d : String → String → DetailRes)
    (uid : String) :
    ∀ (l : List CharSummary) (r : List CharRow × List GuildRow × List Event),
      buildRows cfg d uid l = .ok r → ∀ g ∈ r.2.1, g.region = cfg.region := by
  intro l
  induction l with
  | nil =>
    intro r h
    simp only [buildRows, Except.ok.injEq] at h
    rw [← h]
    intro g hg
    simp at hg
  | cons c rest ih =>
    intro r h
    unfold buildRows at h
    split at h
    · exact absurd h (by simp)
    · revert h
      match hrec : buildRows cfg d uid rest with
      | .error evs => intro h; exact absurd h (by simp)
      | .ok r2 =>
        intro h
        simp only [Except.ok.injEq] at h
        rw [← h]
        intro g hg
        exact ih r2 hrec g hg
    · rename_i og heq
      revert h
      match hrec : buildRows cfg d uid rest with
      | .error evs => intro h; exact absurd h (by simp)
      | .ok r2 =>
        intro h
        simp only [Except.ok.injEq] at h
        rw [← h]
        intro g hg
        rcases List.mem_append.mp hg with h2 | h2
        · revert h2
          cases og with
          | none => simp
          | some gu =>
            intro h2
            simp only [List.mem_singleton] at h2
            subst h2
            rfl
        · exact ih r2 hrec g h2

/-- An element of a JavaScript object after an assignment is either the
assigned pair or an element that was already present. -/
theorem objInsert_mem {α : Type} (m : List (String × α)) (k : String) (v : α)
    (p : String × α) (hp : p ∈ objInsert m k v) : p = (k, v) ∨ p ∈ m := by
  unfold objInsert at hp
  split at hp
  · rcases List.mem_map.mp hp with ⟨q, hq, hqe⟩
    by_cases hk : (q.1 == k) = true
    · rw [if_pos hk] at hqe
      left; exact hqe.symm
    · rw [if_neg hk] at hqe
      right; rw [← hqe]; exact hq
  · rcases List.mem_append.mp hp with h | h
    · right; exact h
    · left; simpa using h

/-- Every deduplicated guild entry occurs among the original entries. -/
theorem dedupeGuilds_mem (rows : List GuildRow) :
    ∀ g ∈ dedupeGuilds rows, g ∈ rows := by
  suffices h : ∀ (l : List GuildRow) (m : List (String × GuildRow)),
      ∀ p ∈ l.foldl (fun m g => objInsert m (joinKey g.name g.realm_slug g.region) g) m,
        p ∈ m ∨ p.2 ∈ l by
    intro g hg
    rcases List.mem_map.mp hg with ⟨p, hp, hpe⟩
    rcases h rows [] p hp with hmem | hmem
    · simp at hmem
    · rw [← hpe]; exact hmem
  intro l
  induction l with
  | nil => intro m p hp; exact Or.inl hp
  | cons g rest ih =>
    intro m p hp
    rcases ih _ p hp with h | h
    · rcases objInsert_mem _ _ _ _ h with he | hm
      · right; rw [he]; exact List.mem_cons_self _ _
      · left; exact hm
    · right; exact List.mem_cons_of_mem _ h

/-- A single guild upsert leaves the characters table unchanged. -/
theorem upsertGuildRow_chars (st : Store) (g : GuildRow) :
    (upsertGuildRow st g).1.chars = st.chars := by
  unfold upsertGuildRow
  split <;> rfl

/-- The batched guild upsert leaves the characters table unchanged. -/
theorem upsertGuildsBatch_chars :
    ∀ (l : List GuildRow) (st : Store), (upsertGuildsBatch st l).1.chars = st.chars := by
  intro l
  induction l with
  | nil => intro st; rfl
  | cons g rest ih =>
    intro st
    show (upsertGuildsBatch (upsertGuildRow st g).1 rest).1.chars = st.chars
    rw [ih, upsertGuildRow_chars]

/-- Setting guild_id to none on a freshly built charRows entry changes
nothing: the entry was built with guild_id unset. -/
theorem mkCharRow_set_none (cfg : Config) (uid : String) (c : CharSummary) :
    { mkCharRow cfg uid c with guild_id := none } = mkCharRow cfg uid c := rfl

/-- Whenever the linking loop completes without throwing, every charRows
entry comes out with guild_id null: the loop never writes a guild id. -/
theorem linkCharRows_ok_eq (gmap : List (String × Nat)) (acs : List CharSummary)
    (grs : List GuildRow) :
    ∀ (crs out : List CharRow), linkCharRows gmap acs grs crs = .ok out →
      out = crs.map (fun c => { c with guild_id := none }) := by
  intro crs
  induction crs with
  | nil =>
    intro out h
    simp only [linkCharRows, Except.ok.injEq] at h
    subst h; rfl
  | cons c rest ih =>
    intro out h
    unfold linkCharRows at h
    split at h
    · exact absurd h (by simp)
    · revert h
      match hrec : linkCharRows gmap acs grs rest with
      | .error e => intro h; exact absurd h (by simp)
      | .ok rs =>
        intro h
        simp only [Except.ok.injEq] at h
        rw [← h, ih rs hrec, List.map_cons]

/-- When no account summary carries a guild field, the find at index.ts
line 132 never hits, so the linking loop completes without throwing. -/
theorem linkCharRows_of_no_guild (gmap : List (String × Nat)) (acs : List CharSummary)
    (grs : List GuildRow) (hng : ∀ ac ∈ acs, ac.guild = none) :
    ∀ crs : List CharRow,
      linkCharRows gmap acs grs crs = .ok (crs.map (fun c => { c with guild_id := none })) := by
  intro crs
  induction crs with
  | nil => rfl
  | cons c rest ih =>
    unfold linkCharRows
    have hfind : (grs.find? (fun g => acs.any (summaryMatches c g))) = none := by
      apply List.find?_eq_none.mpr
      intro g _
      simp only [List.any_eq_true, not_exists, not_and, Bool.not_eq_true]
      intro ac hac
      unfold summaryMatches
      rw [hng ac hac]
      simp
    show (match grs.find? (fun g => acs.any (summaryMatches c g)) with
          | some _ => Except.error ()
          | none =>
            match linkCharRows gmap acs grs rest with
            | Except.error e => Except.error e
            | Except.ok rs => Except.ok ({ c with guild_id := none } :: rs)) =
        Except.ok ((c :: rest).map (fun c => { c with guild_id := none }))
    rw [hfind, ih]
    rfl

/-- The cleanup loop issues exactly one delete, by owner and natural key,
for each existing row whose key is absent from currentCharKeys, in
order, regardless of whether the deletes succeed. -/
theorem cleanupLoop_events (del : String → String → String → Bool) (uid : String)
    (keys : List String) :
    ∀ (existing chars : List StoredChar),
      (cleanupLoop del uid keys existing chars).2 =
        (existing.filter
            (fun e => !(keys.contains (joinKey e.name e.realm_slug e.region)))).map
          (fun e => Event.deleteChar uid e.name e.realm_slug e.region) := by
  intro existing
  induction existing with
  | nil => intro chars; rfl
  | cons e rest ih =>
    intro chars
    simp only [cleanupLoop]
    split
    · rename_i hk
      rw [ih, List.filter_cons_of_neg]
      simpa using hk
    · rename_i hk
      rw [List.filter_cons_of_pos]
      · simp only [List.map_cons, List.cons.injEq, true_and]
        exact ih _
      · simpa using hk

/-- Rows owned by another user survive the cleanup loop untouched. -/
theorem cleanupLoop_preserves (del : String → String → String → Bool) (uid : String)
    (keys : List String) (s : StoredChar) (hs : (s.user_id == some uid) = false) :
    ∀ (existing chars : List StoredChar), s ∈ chars →
      s ∈ (cleanupLoop del uid keys existing chars).1 := by
  intro existing
  induction existing with
  | nil => intro chars h; exact h
  | cons e rest ih =>
    intro chars h
    simp only [cleanupLoop]
    split
    · exact ih chars h
    · apply ih
      split
      · exact h
      · unfold applyDelete
        apply List.mem_filter.mpr
        refine ⟨h, ?_⟩
        unfold matchesDelete
        rw [hs]
        simp

/-- With an empty roster key list and no delete failures, the cleanup
loop removes exactly the rows matched by some existing row. -/
theorem cleanupLoop_nil_keys (del : String → String → String → Bool) (uid : String)
    (hde : ∀ n r g, del n r g = false) :
    ∀ (existing chars : List StoredChar),
      (cleanupLoop del uid [] existing chars).1 =
        chars.filter
          (fun s => !(existing.any
            (fun e => matchesDelete uid e.name e.realm_slug e.region s))) := by
  intro existing
  induction existing with
  | nil =>
    intro chars
    simp [cleanupLoop]
  | cons e rest ih =>
    intro chars
    simp only [cleanupLoop, List.contains_nil, Bool.false_eq_true, if_false, hde,
      applyDelete]
    rw [ih]
    rw [List.filter_filter]
    apply List.filter_congr
    intro s _
    cases hm : matchesDelete uid e.name e.realm_slug e.region s <;>
      cases ha : rest.any (fun x => matchesDelete uid x.name x.realm_slug x.region s) <;>
        simp [hm, ha]

/-- Characterization of a run that reaches the end: some identifier
parameter present, user found, account payload decoded, the
per-character loop completed (no detail fetch threw), no account
summary carries a guild field (true of real payloads), and neither
batch upsert fails.  The run succeeds with the roster length as count,
the character table at cleanup time is the batched upsert of the built
charRows over the initial table, and the trace is the two reads and the
detail fetches, at most one guild batch, the character batch, the owned
select, and the cleanup deletes. -/
theorem run_ok (cfg : Config) (inp : RunInput) (st : Store) (user : UserRec)
    (accounts : List WowAccount)
    (built : List CharRow × List GuildRow × List Event)
    (hp : (!truthyStr inp.userIdParam && inp.battlenetIdParam.isNone) = false)
    (hlk : lookupUser st.users inp.userIdParam inp.battlenetIdParam = some user)
    (hacc : inp.account = .ok accounts)
    (hbr : buildRows cfg inp.detail user.id (allCharsOf accounts) = .ok built)
    (hng : ∀ ac ∈ allCharsOf accounts, ac.guild = none)
    (hge : inp.guildUpsertError = false)
    (hce : inp.charUpsertError = false) :
    ∃ (st1 : Store) (gevs : List Event),
      st1.chars = st.chars ∧
      (∀ ev ∈ gevs, ev = Event.upsertGuilds (dedupeGuilds built.2.1)) ∧
      fetchProfileRun cfg inp st =
        (.success user.battletag (allCharsOf accounts).length,
         { st1 with chars := (cleanupLoop inp.deleteError user.id
             (rosterKeys cfg (allCharsOf accounts))
             ((applyCharUpsert st.chars
                 ((allCharsOf accounts).map (mkCharRow cfg user.id))).filter
               (fun s => s.user_id == some user.id))
             (applyCharUpsert st.chars
               ((allCharsOf accounts).map (mkCharRow cfg user.id)))).1 },
         (Event.selectUser :: Event.fetchAccount :: built.2.2)
           ++ gevs
           ++ [Event.upsertChars ((allCharsOf accounts).map (mkCharRow cfg user.id)),
               Event.selectOwned user.id]
           ++ (cleanupLoop inp.deleteError user.id
                 (rosterKeys cfg (allCharsOf accounts))
                 ((applyCharUpsert st.chars
                     ((allCharsOf accounts).map (mkCharRow cfg user.id))).filter
                   (fun s => s.user_id == some user.id))
                 (applyCharUpsert st.chars
                   ((allCharsOf accounts).map (mkCharRow cfg user.id)))).2) := by
  have hcr : built.1 = (allCharsOf accounts).map (mkCharRow cfg user.id) :=
    buildRows_ok_fst cfg inp.detail user.id _ built hbr
  have hsetnone :
      ((allCharsOf accounts).map (mkCharRow cfg user.id)).map
          (fun c => { c with guild_id := none })
        = (allCharsOf accounts).map (mkCharRow cfg user.id) := by
    rw [List.map_map]
    simp [Function.comp, mkCharRow_set_none]
  have hlink : ∀ gmap : List (String × Nat),
      linkCharRows gmap (allCharsOf accounts) built.2.1
        ((allCharsOf accounts).map (mkCharRow cfg user.id))
      = .ok ((allCharsOf accounts).map (mkCharRow cfg user.id)) := by
    intro gmap
    rw [linkCharRows_of_no_guild gmap _ _ hng, hsetnone]
  by_cases hgr : built.2.1.isEmpty
  · refine ⟨st, [], rfl, by simp, ?_⟩
    simp only [fetchProfileRun, hp, Bool.false_eq_true, if_false, hlk, hacc, hbr, hgr,
      if_true, afterGuildsPhase, hlink, hce, hcr, List.length_map, List.nil_append,
      List.append_nil]
  · refine ⟨(upsertGuildsBatch st (dedupeGuilds built.2.1)).1,
      [Event.upsertGuilds (dedupeGuilds built.2.1)],
      upsertGuildsBatch_chars _ _, by simp, ?_⟩
    simp only [fetchProfileRun, hp, Bool.false_eq_true, if_false, hlk, hacc, hbr, hgr,
      hge, afterGuildsPhase, hlink, hce, hcr, List.length_map,
      upsertGuildsBatch_chars, if_false]

/-- C1.  The claim says the guild id written for each character is
resolved from the character-detail fetch of that same character.  The code
violates it: at a run with one roster character Thrall whose detail
fetch reports guild Horde Vanguard, the guild is upserted and persisted
with id 0, yet the character row is written with guild_id null, because
the linking loop at index.ts lines 130 to 151 matches against the
optional guild field of the account-summary payload (absent there)
instead of the detail-fetch result, and never consults the guild id
map. -/
theorem claim1_guild_link_ignores_detail_fetch :
    (fetchProfileRun cfgUS inp1x st1x).1 = .success "Tester" 1 ∧
    (fetchProfileRun cfgUS inp1x st1x).2.1.guilds =
      [{ id := 0, name := "Horde Vanguard", realm_slug := "icecrown", region := "us" }] ∧
    (fetchProfileRun cfgUS inp1x st1x).2.1.chars =
      [{ name := "Thrall", realm_slug := "icecrown", region := "us", user_id := some "u1",
         guild_id := none, level := 60, class_id := 1, race_id := 2 }] ∧
    inp1x.detail "icecrown" "thrall" =
      .ok (some { name := "Horde Vanguard", realmSlug := "icecrown" }) := by
  refine ⟨?_, ?_, ?_, ?_⟩ <;> decide

/-- C4.  Two roster characters both report guild Alpha on area52 in
their detail fetches.  The dedupe half of the claim holds: exactly one
guild entry is in the upsert batch, and one guild row with id 0 is
persisted.  The resolution half fails on the code: both characters are
written with guild_id null rather than referencing the persisted guild
id, because the linking loop never uses the guild id map. -/
theorem claim4_dedupe_but_null_links :
    Event.upsertGuilds [{ name := "Alpha", realm_slug := "area52", region := "us" }] ∈
      (fetchProfileRun cfgUS inp4x st1x).2.2 ∧
    (fetchProfileRun cfgUS inp4x st1x).2.1.guilds =
      [{ id := 0, name := "Alpha", realm_slug := "area52", region := "us" }] ∧
    ((fetchProfileRun cfgUS inp4x st1x).2.1.chars.map (fun s => (s.name, s.guild_id))) =
      [("Aria", none), ("Borin", none)] := by
  refine ⟨?_, ?_, ?_⟩ <;> decide

/-- C2.  When the batched guild upsert fails, the run terminates with the
thrown guild-upsert error (the persistence failure of the spec, rendered
as the 500 response by the catch), the store is unchanged, and neither a
character upsert nor a delete is issued in that run. -/
theorem claim2_guild_upsert_failure_aborts (cfg : Config) (inp : RunInput) (st : Store)
    (user : UserRec) (accounts : List WowAccount)
    (built : List CharRow × List GuildRow × List Event)
    (hp : (!truthyStr inp.userIdParam && inp.battlenetIdParam.isNone) = false)
    (hlk : lookupUser st.users inp.userIdParam inp.battlenetIdParam = some user)
    (hacc : inp.account = .ok accounts)
    (hbr : buildRows cfg inp.detail user.id (allCharsOf accounts) = .ok built)
    (hge : inp.guildUpsertError = true)
    (hnz : built.2.1 ≠ []) :
    (fetchProfileRun cfg inp st).1 = .serverError .guildUpsertFailed ∧
    (fetchProfileRun cfg inp st).2.1 = st ∧
    (∀ rows, Event.upsertChars rows ∉ (fetchProfileRun cfg inp st).2.2) ∧
    (∀ u n r g, Event.deleteChar u n r g ∉ (fetchProfileRun cfg inp st).2.2) := by
  have hgr : built.2.1.isEmpty = false := by
    cases hn : built.2.1 with
    | nil => exact absurd hn hnz
    | cons a l => rfl
  have hrun : fetchProfileRun cfg inp st =
      (.serverError .guildUpsertFailed, st,
        (Event.selectUser :: Event.fetchAccount :: built.2.2)
        ++ [Event.upsertGuilds (dedupeGuilds built.2.1)]) := by
    simp only [fetchProfileRun, hp, Bool.false_eq_true, if_false, hlk, hacc, hbr, hgr,
      hge, if_true]
  rw [hrun]
  refine ⟨rfl, rfl, ?_, ?_⟩
  · intro rows hmem
    simp only [List.cons_append, List.mem_cons, List.mem_append, List.mem_singleton]
      at hmem
    rcases hmem with h | h | h | h
    · exact Event.noConfusion h
    · exact Event.noConfusion h
    · rcases buildRows_ok_events_shape cfg inp.detail user.id (allCharsOf accounts)
        built hbr _ h with ⟨r, n, he⟩
      exact Event.noConfusion he
    · rcases h with h | h
      · exact Event.noConfusion h
      · simp at h
  · intro u n r g hmem
    simp only [List.cons_append, List.mem_cons, List.mem_append, List.mem_singleton]
      at hmem
    rcases hmem with h | h | h | h
    · exact Event.noConfusion h
    · exact Event.noConfusion h
    · rcases buildRows_ok_events_shape cfg inp.detail user.id (allCharsOf accounts)
        built hbr _ h with ⟨r2, n2, he⟩
      exact Event.noConfusion he
    · rcases h with h | h
      · exact Event.noConfusion h
      · simp at h

/-- C2 witness: a concrete run whose guild batch write fails. -/
theorem claim2_witness :
    (fetchProfileRun cfgUS inp2x st1x).1 = .serverError .guildUpsertFailed ∧
    (fetchProfileRun cfgUS inp2x st1x).2.1 = st1x ∧
    (∀ rows, Event.upsertChars rows ∉ (fetchProfileRun cfgUS inp2x st1x).2.2) ∧
    (∀ u n r g, Event.deleteChar u n r g ∉ (fetchProfileRun cfgUS inp2x st1x).2.2) :=
  claim2_guild_upsert_failure_aborts cfgUS inp2x st1x userU1
    [{ characters := some [thrallSummary] }]
    ([mkCharRow cfgUS "u1" thrallSummary],
     [{ name := "Horde Vanguard", realm_slug := "icecrown", region := "us" }],
     [Event.fetchDetail "icecrown" "thrall"])
    (by decide) (by decide) rfl rfl rfl (by decide)

/-- C5.  When the account-roster fetch reports an authentication error,
the run returns the 401 unauthorized response immediately: the store is
returned unchanged and the trace holds only the user select and the
account fetch, so no write of any kind was issued. -/
theorem claim5_unauthorized_no_writes (cfg : Config) (inp : RunInput) (st : Store)
    (user : UserRec)
    (hp : (!truthyStr inp.userIdParam && inp.battlenetIdParam.isNone) = false)
    (hlk : lookupUser st.users inp.userIdParam inp.battlenetIdParam = some user)
    (hacc : inp.account = .authError) :
    fetchProfileRun cfg inp st = (.unauthorized, st, [Event.selectUser, Event.fetchAccount]) ∧
    (∀ e ∈ (fetchProfileRun cfg inp st).2.2, isWriteEvent e = false) := by
  have hrun : fetchProfileRun cfg inp st =
      (.unauthorized, st, [Event.selectUser, Event.fetchAccount]) := by
    simp only [fetchProfileRun, hp, Bool.false_eq_true, if_false, hlk, hacc]
  refine ⟨hrun, ?_⟩
  rw [hrun]
  intro e he
  simp only [List.mem_cons, List.mem_singleton, List.not_mem_nil, or_false] at he
  rcases he with h | h <;> subst h <;> rfl

/-- C5 witness: a concrete run whose roster fetch reports status 401. -/
theorem claim5_witness :
    fetchProfileRun cfgUS inp5x st1x =
      (.unauthorized, st1x, [Event.selectUser, Event.fetchAccount]) :=
  (claim5_unauthorized_no_writes cfgUS inp5x st1x userU1 (by decide) (by decide) rfl).1

/-- C9.  When neither a user_id nor a battlenet_id query parameter is
present, the handler returns the 400 response with the store unchanged
and an empty trace: no store read, no store write and no remote call was
issued. -/
theorem claim9_missing_params (cfg : Config) (inp : RunInput) (st : Store)
    (hu : inp.userIdParam = none) (hb : inp.battlenetIdParam = none) :
    fetchProfileRun cfg inp st = (.missingParam, st, []) ∧
    ((fetchProfileRun cfg inp st).1).status = 400 := by
  have hrun : fetchProfileRun cfg inp st = (.missingParam, st, []) := by
    simp [fetchProfileRun, hu, hb, truthyStr]
  exact ⟨hrun, by rw [hrun]; rfl⟩

/-- C9 witness: a concrete request with no identifier parameter. -/
theorem claim9_witness :
    fetchProfileRun cfgUS inp9x st1x = (.missingParam, st1x, []) :=
  (claim9_missing_params cfgUS inp9x st1x rfl rfl).1

/-- C6, amended.  A character whose detail fetch receives a non-ok
response or reports no guild does not abort the run, provided the
detail loop completes (no detail request throws): the run still
succeeds, the character batch contains the row built from that
character with a null guild reference, and the batch as a whole is
exactly the rows built from each summary on its own (so the failure
changes no other row).  A detail request that throws instead aborts
the whole run; see the counterexample. -/
theorem claim6_detail_failure_degrades (cfg : Config) (inp : RunInput) (st : Store)
    (user : UserRec) (accounts : List WowAccount)
    (built : List CharRow × List GuildRow × List Event) (c : CharSummary)
    (hp : (!truthyStr inp.userIdParam && inp.battlenetIdParam.isNone) = false)
    (hlk : lookupUser st.users inp.userIdParam inp.battlenetIdParam = some user)
    (hacc : inp.account = .ok accounts)
    (hbr : buildRows cfg inp.detail user.id (allCharsOf accounts) = .ok built)
    (hng : ∀ ac ∈ allCharsOf accounts, ac.guild = none)
    (hge : inp.guildUpsertError = false)
    (hce : inp.charUpsertError = false)
    (hc : c ∈ allCharsOf accounts)
    (hdet : inp.detail c.realmSlug (jsToLower c.name) = .fail ∨
            inp.detail c.realmSlug (jsToLower c.name) = .ok none) :
    (fetchProfileRun cfg inp st).1 = .success user.battletag (allCharsOf accounts).length ∧
    Event.upsertChars ((allCharsOf accounts).map (mkCharRow cfg user.id)) ∈
      (fetchProfileRun cfg inp st).2.2 ∧
    mkCharRow cfg user.id c ∈ (allCharsOf accounts).map (mkCharRow cfg user.id) ∧
    (mkCharRow cfg user.id c).guild_id = none := by
  obtain ⟨st1, gevs, hst1, hgevs, hrun⟩ :=
    run_ok cfg inp st user accounts built hp hlk hacc hbr hng hge hce
  rw [hrun]
  refine ⟨rfl, ?_, List.mem_map_of_mem _ hc, rfl⟩
  simp [List.mem_append]

/-- C6 counterexample.  The original claim says a character whose detail
fetch fails never aborts the run.  A detail fetch can also fail by
throwing: the awaited fetch at index.ts line 75 rejects on a transport
error, and the handler has no local handler for it, so the exception
reaches the catch at line 176.  At the concrete run below, whose one
roster character has a throwing detail fetch, the run aborts with the
500 response, no write of any kind is issued, and no character row is
stored, although the claim requires the character to be upserted with a
null guild reference. -/
theorem claim6_counterexample :
    (fetchProfileRun cfgUS inp6c st1x).1 = .serverError .detailFetchFailed ∧
    RunResult.status (fetchProfileRun cfgUS inp6c st1x).1 = 500 ∧
    (fetchProfileRun cfgUS inp6c st1x).2.2.filter isWriteEvent = [] ∧
    (fetchProfileRun cfgUS inp6c st1x).2.1.chars = [] ∧
    inp6c.detail "icecrown" "thrall" = .throws := by
  refine ⟨?_, ?_, ?_, ?_, ?_⟩ <;> decide

/-- C6 witness: a concrete run in which the only roster character has a
non-ok detail response; the run succeeds and the character is upserted
with a null guild reference. -/
theorem claim6_witness :
    (fetchProfileRun cfgUS inp6x st1x).1 = .success "Tester" 1 ∧
    Event.upsertChars [mkCharRow cfgUS "u1" thrallSummary] ∈
      (fetchProfileRun cfgUS inp6x st1x).2.2 ∧
    (mkCharRow cfgUS "u1" thrallSummary).guild_id = none := by
  have h := claim6_detail_failure_degrades cfgUS inp6x st1x userU1
    [{ characters := some [thrallSummary] }]
    ([mkCharRow cfgUS "u1" thrallSummary], [], [Event.fetchDetail "icecrown" "thrall"])
    thrallSummary
    (by decide) (by decide) rfl rfl (by decide) rfl rfl (by decide) (Or.inl rfl)
  exact ⟨h.1, h.2.1, h.2.2.2⟩

/-- C3.  At the end of a run that completes, the cleanup deletes exactly
by owner and natural key: every persisted character owned by the
reconciling user whose key is absent from the roster key set gets a
delete event with that owner and key; every delete event issued names
the reconciling user as owner; and every persisted character owned by
someone else survives to the final store. -/
theorem claim3_orphan_cleanup (cfg : Config) (inp : RunInput) (st : Store)
    (user : UserRec) (accounts : List WowAccount)
    (built : List CharRow × List GuildRow × List Event)
    (hp : (!truthyStr inp.userIdParam && inp.battlenetIdParam.isNone) = false)
    (hlk : lookupUser st.users inp.userIdParam inp.battlenetIdParam = some user)
    (hacc : inp.account = .ok accounts)
    (hbr : buildRows cfg inp.detail user.id (allCharsOf accounts) = .ok built)
    (hng : ∀ ac ∈ allCharsOf accounts, ac.guild = none)
    (hge : inp.guildUpsertError = false)
    (hce : inp.charUpsertError = false) :
    (fetchProfileRun cfg inp st).1 = .success user.battletag (allCharsOf accounts).length ∧
    (∀ s ∈ applyCharUpsert st.chars ((allCharsOf accounts).map (mkCharRow cfg user.id)),
       s.user_id = some user.id →
       (rosterKeys cfg (allCharsOf accounts)).contains
           (joinKey s.name s.realm_slug s.region) = false →
       Event.deleteChar user.id s.name s.realm_slug s.region ∈
         (fetchProfileRun cfg inp st).2.2) ∧
    (∀ u n r g, Event.deleteChar u n r g ∈ (fetchProfileRun cfg inp st).2.2 →
       u = user.id) ∧
    (∀ s ∈ applyCharUpsert st.chars ((allCharsOf accounts).map (mkCharRow cfg user.id)),
       (s.user_id == some user.id) = false →
       s ∈ (fetchProfileRun cfg inp st).2.1.chars) := by
  obtain ⟨st1, gevs, hst1, hgevs, hrun⟩ :=
    run_ok cfg inp st user accounts built hp hlk hacc hbr hng hge hce
  rw [hrun]
  have hevents := cleanupLoop_events inp.deleteError user.id
    (rosterKeys cfg (allCharsOf accounts))
    ((applyCharUpsert st.chars ((allCharsOf accounts).map (mkCharRow cfg user.id))).filter
      (fun s => s.user_id == some user.id))
    (applyCharUpsert st.chars ((allCharsOf accounts).map (mkCharRow cfg user.id)))
  refine ⟨rfl, ?_, ?_, ?_⟩
  · intro s hs howner hkey
    have hsf : s ∈ (applyCharUpsert st.chars
        ((allCharsOf accounts).map (mkCharRow cfg user.id))).filter
          (fun x => x.user_id == some user.id) :=
      List.mem_filter.mpr ⟨hs, by rw [howner]; simp⟩
    have hsk : s ∈ ((applyCharUpsert st.chars
        ((allCharsOf accounts).map (mkCharRow cfg user.id))).filter
          (fun x => x.user_id == some user.id)).filter
        (fun e => !(rosterKeys cfg (allCharsOf accounts)).contains
          (joinKey e.name e.realm_slug e.region)) :=
      List.mem_filter.mpr ⟨hsf, by rw [hkey]; rfl⟩
    have hmem : Event.deleteChar user.id s.name s.realm_slug s.region ∈
        (cleanupLoop inp.deleteError user.id (rosterKeys cfg (allCharsOf accounts))
          ((applyCharUpsert st.chars
            ((allCharsOf accounts).map (mkCharRow cfg user.id))).filter
              (fun x => x.user_id == some user.id))
          (applyCharUpsert st.chars
            ((allCharsOf accounts).map (mkCharRow cfg user.id)))).2 := by
      rw [hevents]
      exact List.mem_map_of_mem _ hsk
    simp only [List.mem_append, List.mem_cons]
    tauto
  · intro u n r g hmem
    rcases List.mem_append.mp hmem with h | h
    · rcases List.mem_append.mp h with h | h
      · rcases List.mem_append.mp h with h | h
        · simp only [List.mem_cons] at h
          rcases h with h | h | h
          · exact Event.noConfusion h
          · exact Event.noConfusion h
          · rcases buildRows_ok_events_shape cfg inp.detail user.id
                (allCharsOf accounts) built hbr _ h with ⟨r2, n2, he⟩
            exact Event.noConfusion he
        · exact Event.noConfusion (hgevs _ h)
      · simp only [List.mem_cons, List.not_mem_nil, or_false] at h
        rcases h with h | h
        · exact Event.noConfusion h
        · exact Event.noConfusion h
    · rw [hevents] at h
      rcases List.mem_map.mp h with ⟨e, he, heq⟩
      injection heq with h1 h2 h3 h4
      exact h1.symm
  · intro s hs howner
    show s ∈ (cleanupLoop inp.deleteError user.id (rosterKeys cfg (allCharsOf accounts))
        ((applyCharUpsert st.chars
          ((allCharsOf accounts).map (mkCharRow cfg user.id))).filter
            (fun x => x.user_id == some user.id))
        (applyCharUpsert st.chars
          ((allCharsOf accounts).map (mkCharRow cfg user.id)))).1
    exact cleanupLoop_preserves inp.deleteError user.id _ s howner _ _ hs

/-- C3 witness: a concrete run with one stale owned character (deleted)
and one character owned by another user (kept). -/
theorem claim3_witness :
    Event.deleteChar "u1" "Oldone" "realmx" "us" ∈
      (fetchProfileRun cfgUS inp3x st3x).2.2 ∧
    otherRow3x ∈ (fetchProfileRun cfgUS inp3x st3x).2.1.chars := by
  have h := claim3_orphan_cleanup cfgUS inp3x st3x userU1
    [{ characters := some [thrallSummary] }]
    ([mkCharRow cfgUS "u1" thrallSummary], [], [Event.fetchDetail "icecrown" "thrall"])
    (by decide) (by decide) rfl rfl (by decide) rfl rfl
  exact ⟨h.2.1 oldRow3x (by decide) (by decide) (by decide),
         h.2.2.2 otherRow3x (by decide) (by decide)⟩

/-- C7.  A run whose fetched roster is empty succeeds with count 0, puts
no guild batch and only an empty character batch on the trace (zero
rows written), leaves the guilds table unchanged, and still performs
cleanup: every character previously owned by the user is deleted and
the final character table keeps exactly the rows of other owners. -/
theorem claim7_empty_roster (cfg : Config) (inp : RunInput) (st : Store)
    (user : UserRec) (accounts : List WowAccount)
    (hp : (!truthyStr inp.userIdParam && inp.battlenetIdParam.isNone) = false)
    (hlk : lookupUser st.users inp.userIdParam inp.battlenetIdParam = some user)
    (hacc : inp.account = .ok accounts)
    (hempty : allCharsOf accounts = [])
    (hce : inp.charUpsertError = false)
    (hde : ∀ n r g, inp.deleteError n r g = false) :
    (fetchProfileRun cfg inp st).1 = .success user.battletag 0 ∧
    (∀ rows, Event.upsertGuilds rows ∉ (fetchProfileRun cfg inp st).2.2) ∧
    (∀ rows, Event.upsertChars rows ∈ (fetchProfileRun cfg inp st).2.2 → rows = []) ∧
    (fetchProfileRun cfg inp st).2.1.guilds = st.guilds ∧
    (fetchProfileRun cfg inp st).2.1.chars =
      st.chars.filter (fun s => !(s.user_id == some user.id)) ∧
    (∀ s ∈ st.chars, s.user_id = some user.id →
      Event.deleteChar user.id s.name s.realm_slug s.region ∈
        (fetchProfileRun cfg inp st).2.2) := by
  have hexist : ∀ l : List StoredChar,
      l.filter (fun e =>
        !(([] : List String).contains (joinKey e.name e.realm_slug e.region))) = l := by
    intro l
    apply List.filter_eq_self.mpr
    intro e he
    rfl
  have hevents := cleanupLoop_events inp.deleteError user.id []
    (st.chars.filter (fun s => s.user_id == some user.id)) st.chars
  have hrun : fetchProfileRun cfg inp st =
      (.success user.battletag 0,
       { st with chars := (cleanupLoop inp.deleteError user.id []
           (st.chars.filter (fun s => s.user_id == some user.id)) st.chars).1 },
       [Event.selectUser, Event.fetchAccount,
        Event.upsertChars [], Event.selectOwned user.id]
         ++ (cleanupLoop inp.deleteError user.id []
           (st.chars.filter (fun s => s.user_id == some user.id)) st.chars).2) := by
    simp only [fetchProfileRun, hp, Bool.false_eq_true, if_false, hlk, hacc, hempty,
      buildRows, List.isEmpty_nil, if_true, afterGuildsPhase, linkCharRows, hce,
      applyCharUpsert, List.foldl_nil, rosterKeys, List.map_nil, List.length_nil,
      List.nil_append, List.append_nil, List.cons_append]
  refine ⟨by rw [hrun], ?_, ?_, by rw [hrun], ?_, ?_⟩
  · intro rows hmem
    rw [hrun] at hmem
    simp only [List.cons_append, List.nil_append, List.mem_cons] at hmem
    rcases hmem with h | h | h | h | h
    · exact Event.noConfusion h
    · exact Event.noConfusion h
    · exact Event.noConfusion h
    · exact Event.noConfusion h
    · rw [hevents] at h
      rcases List.mem_map.mp h with ⟨e, he, heq⟩
      exact Event.noConfusion heq
  · intro rows hmem
    rw [hrun] at hmem
    simp only [List.cons_append, List.nil_append, List.mem_cons] at hmem
    rcases hmem with h | h | h | h | h
    · exact Event.noConfusion h
    · exact Event.noConfusion h
    · injection h
    · exact Event.noConfusion h
    · rw [hevents] at h
      rcases List.mem_map.mp h with ⟨e, he, heq⟩
      exact Event.noConfusion heq
  · rw [hrun]
    show (cleanupLoop inp.deleteError user.id []
        (st.chars.filter (fun s => s.user_id == some user.id)) st.chars).1
      = st.chars.filter (fun s => !(s.user_id == some user.id))
    rw [cleanupLoop_nil_keys inp.deleteError user.id hde]
    apply List.filter_congr
    intro s hsmem
    by_cases hb : (s.user_id == some user.id) = true
    · have hmatch : matchesDelete user.id s.name s.realm_slug s.region s = true := by
        unfold matchesDelete
        rw [hb]
        simp
      have hany : (st.chars.filter (fun x => x.user_id == some user.id)).any
          (fun e => matchesDelete user.id e.name e.realm_slug e.region s) = true :=
        List.any_eq_true.mpr ⟨s, List.mem_filter.mpr ⟨hsmem, hb⟩, hmatch⟩
      rw [hany, hb]
    · have hb2 : (s.user_id == some user.id) = false := by
        cases hx : (s.user_id == some user.id)
        · rfl
        · exact absurd hx hb
      have hany : (st.chars.filter (fun x => x.user_id == some user.id)).any
          (fun e => matchesDelete user.id e.name e.realm_slug e.region s) = false := by
        rw [List.any_eq_false]
        intro e hemem
        unfold matchesDelete
        rw [hb2]
        simp
      rw [hany, hb2]
  · intro s hs howner
    rw [hrun]
    have hsf : s ∈ st.chars.filter (fun x => x.user_id == some user.id) :=
      List.mem_filter.mpr ⟨hs, by rw [howner]; simp⟩
    have hmem : Event.deleteChar user.id s.name s.realm_slug s.region ∈
        (cleanupLoop inp.deleteError user.id []
          (st.chars.filter (fun x => x.user_id == some user.id)) st.chars).2 := by
      rw [hevents, hexist]
      exact List.mem_map_of_mem _ hsf
    simp only [List.cons_append, List.nil_append, List.mem_cons]
    tauto

/-- C7 witness: a concrete empty-roster run over a store with three
characters owned by the user; the result count is 0, the character
table ends empty, and a delete was issued for each of them. -/
theorem claim7_witness :
    (fetchProfileRun cfgUS inp7x st7x).1 = .success "Tester" 0 ∧
    (fetchProfileRun cfgUS inp7x st7x).2.1.chars = [] ∧
    Event.deleteChar "u1" "Alpha1" "realmx" "us" ∈ (fetchProfileRun cfgUS inp7x st7x).2.2 ∧
    Event.deleteChar "u1" "Alpha2" "realmx" "us" ∈ (fetchProfileRun cfgUS inp7x st7x).2.2 ∧
    Event.deleteChar "u1" "Alpha3" "realmx" "us" ∈ (fetchProfileRun cfgUS inp7x st7x).2.2 := by
  have h := claim7_empty_roster cfgUS inp7x st7x userU1 []
    (by decide) (by decide) rfl rfl rfl (fun _ _ _ => rfl)
  refine ⟨h.1, ?_, h.2.2.2.2.2 ownedRow7a (by decide) rfl,
    h.2.2.2.2.2 ownedRow7b (by decide) rfl, h.2.2.2.2.2 ownedRow7c (by decide) rfl⟩
  rw [h.2.2.2.2.1]
  decide

/-- C8, amended.  Character natural keys are compared by exact,
case-sensitive string equality during cleanup: an owned persisted row
gets a delete exactly when its raw key string is absent from the roster
key set, with no lowercasing on either side; and the character batch
stores each roster name verbatim, preserving the remote canonical
casing. -/
theorem claim8_case_sensitive_comparison (cfg : Config) (inp : RunInput) (st : Store)
    (user : UserRec) (accounts : List WowAccount)
    (built : List CharRow × List GuildRow × List Event)
    (hp : (!truthyStr inp.userIdParam && inp.battlenetIdParam.isNone) = false)
    (hlk : lookupUser st.users inp.userIdParam inp.battlenetIdParam = some user)
    (hacc : inp.account = .ok accounts)
    (hbr : buildRows cfg inp.detail user.id (allCharsOf accounts) = .ok built)
    (hng : ∀ ac ∈ allCharsOf accounts, ac.guild = none)
    (hge : inp.guildUpsertError = false)
    (hce : inp.charUpsertError = false)
    (s : StoredChar)
    (hs : s ∈ applyCharUpsert st.chars ((allCharsOf accounts).map (mkCharRow cfg user.id)))
    (howner : (s.user_id == some user.id) = true) :
    (Event.deleteChar user.id s.name s.realm_slug s.region ∈
        (fetchProfileRun cfg inp st).2.2 ↔
      (rosterKeys cfg (allCharsOf accounts)).contains
        (joinKey s.name s.realm_slug s.region) = false) ∧
    (∀ rows, Event.upsertChars rows ∈ (fetchProfileRun cfg inp st).2.2 →
      rows.map CharRow.name = (allCharsOf accounts).map CharSummary.name) := by
  obtain ⟨st1, gevs, hst1, hgevs, hrun⟩ :=
    run_ok cfg inp st user accounts built hp hlk hacc hbr hng hge hce
  rw [hrun]
  have hevents := cleanupLoop_events inp.deleteError user.id
    (rosterKeys cfg (allCharsOf accounts))
    ((applyCharUpsert st.chars ((allCharsOf accounts).map (mkCharRow cfg user.id))).filter
      (fun x => x.user_id == some user.id))
    (applyCharUpsert st.chars ((allCharsOf accounts).map (mkCharRow cfg user.id)))
  constructor
  · constructor
    · intro hmem
      rcases List.mem_append.mp hmem with h | h
      · rcases List.mem_append.mp h with h | h
        · rcases List.mem_append.mp h with h | h
          · simp only [List.mem_cons] at h
            rcases h with h | h | h
            · exact Event.noConfusion h
            · exact Event.noConfusion h
            · rcases buildRows_ok_events_shape cfg inp.detail user.id
                  (allCharsOf accounts) built hbr _ h with ⟨r2, n2, he⟩
              exact Event.noConfusion he
          · exact Event.noConfusion (hgevs _ h)
        · simp only [List.mem_cons, List.not_mem_nil, or_false] at h
          rcases h with h | h
          · exact Event.noConfusion h
          · exact Event.noConfusion h
      · rw [hevents] at h
        rcases List.mem_map.mp h with ⟨e, he, heq⟩
        injection heq with h1 h2 h3 h4
        rcases List.mem_filter.mp he with ⟨he2, hkey⟩
        rw [← h2, ← h3, ← h4]
        simpa using hkey
    · intro hkey
      have hsf : s ∈ (applyCharUpsert st.chars
          ((allCharsOf accounts).map (mkCharRow cfg user.id))).filter
            (fun x => x.user_id == some user.id) :=
        List.mem_filter.mpr ⟨hs, howner⟩
      have hsk : s ∈ ((applyCharUpsert st.chars
          ((allCharsOf accounts).map (mkCharRow cfg user.id))).filter
            (fun x => x.user_id == some user.id)).filter
          (fun e => !(rosterKeys cfg (allCharsOf accounts)).contains
            (joinKey e.name e.realm_slug e.region)) :=
        List.mem_filter.mpr ⟨hsf, by rw [hkey]; rfl⟩
      have hmem : Event.deleteChar user.id s.name s.realm_slug s.region ∈
          (cleanupLoop inp.deleteError user.id (rosterKeys cfg (allCharsOf accounts))
            ((applyCharUpsert st.chars
              ((allCharsOf accounts).map (mkCharRow cfg user.id))).filter
                (fun x => x.user_id == some user.id))
            (applyCharUpsert st.chars
              ((allCharsOf accounts).map (mkCharRow cfg user.id)))).2 := by
        rw [hevents]
        exact List.mem_map_of_mem _ hsk
      exact List.mem_append.mpr (Or.inr hmem)
  · intro rows hmem
    rcases List.mem_append.mp hmem with h | h
    · rcases List.mem_append.mp h with h | h
      · rcases List.mem_append.mp h with h | h
        · simp only [List.mem_cons] at h
          rcases h with h | h | h
          · exact Event.noConfusion h
          · exact Event.noConfusion h
          · rcases buildRows_ok_events_shape cfg inp.detail user.id
                (allCharsOf accounts) built hbr _ h with ⟨r2, n2, he⟩
            exact Event.noConfusion he
        · exact Event.noConfusion (hgevs _ h)
      · simp only [List.mem_cons, List.not_mem_nil, or_false] at h
        rcases h with h | h
        · injection h with h1
          rw [h1, List.map_map]
          apply List.map_congr_left
          intro c hc
          rfl
        · exact Event.noConfusion h
    · rw [hevents] at h
      rcases List.mem_map.mp h with ⟨e, he, heq⟩
      exact Event.noConfusion heq

/-- C8 counterexample.  The claim says the name component is lowercased
for natural-key comparison during cleanup.  With a stored owned row
named thrall and a roster whose one character is named Thrall, the two
keys are equal after lowercasing, yet the run issues a delete for the
stored row: the comparison at index.ts lines 161 and 167 uses the raw
strings with no case normalization. -/
theorem claim8_counterexample :
    Event.deleteChar "u1" "thrall" "icecrown" "us" ∈
      (fetchProfileRun cfgUS inp8x st8x).2.2 ∧
    jsToLower "thrall" = jsToLower "Thrall" ∧
    rosterKeys cfgUS (allCharsOf [{ characters := some [thrallSummary] }]) =
      ["Thrall|icecrown|us"] ∧
    joinKey "thrall" "icecrown" "us" = "thrall|icecrown|us" := by
  refine ⟨?_, ?_, ?_, ?_⟩ <;> decide

/-- C8 witness: the amended case-sensitive comparison applied at the
counterexample input; the raw key of the stored lowercase row is absent
from the roster key set, so its delete is issued. -/
theorem claim8_witness :
    Event.deleteChar "u1" "thrall" "icecrown" "us" ∈
      (fetchProfileRun cfgUS inp8x st8x).2.2 :=
  ((claim8_case_sensitive_comparison cfgUS inp8x st8x userU1
      [{ characters := some [thrallSummary] }]
      ([mkCharRow cfgUS "u1" thrallSummary], [], [Event.fetchDetail "icecrown" "thrall"])
      (by decide) (by decide) rfl rfl (by decide) rfl rfl
      thrallLowerRow (by decide) (by decide)).1).mpr (by decide)

/-- Trace shape of the tail phase: besides the events it is handed, the
tail phase emits only the character batch (the charRows with null guild
ids), the owned select, and delete events. -/
theorem afterGuildsPhase_trace (cfg : Config) (inp : RunInput) (user : UserRec)
    (allCharacters : List CharSummary) (charRows : List CharRow)
    (guildRows : List GuildRow) (gmap : List (String × Nat))
    (pre : List Event) (st1 : Store) (gevs : List Event) :
    ∃ tail : List Event,
      (afterGuildsPhase cfg inp user allCharacters charRows guildRows gmap pre st1 gevs).2.2
        = (pre ++ gevs) ++ tail ∧
      ∀ e ∈ tail,
        e = Event.upsertChars (charRows.map (fun c => { c with guild_id := none })) ∨
        e = Event.selectOwned user.id ∨
        ∃ u n r g, e = Event.deleteChar u n r g := by
  cases hl : linkCharRows gmap allCharacters guildRows charRows with
  | error err =>
    refine ⟨[], ?_, ?_⟩
    · simp [afterGuildsPhase, hl]
    · intro e he; simp at he
  | ok linked =>
    have hlinked : linked = charRows.map (fun c => { c with guild_id := none }) :=
      linkCharRows_ok_eq gmap allCharacters guildRows charRows linked hl
    by_cases hce : inp.charUpsertError
    · refine ⟨[Event.upsertChars linked], ?_, ?_⟩
      · simp [afterGuildsPhase, hl, hce]
      · intro e he
        simp only [List.mem_singleton] at he
        subst he
        exact Or.inl (by rw [hlinked])
    · refine ⟨[Event.upsertChars linked, Event.selectOwned user.id] ++
          (cleanupLoop inp.deleteError user.id (rosterKeys cfg allCharacters)
            ((applyCharUpsert st1.chars linked).filter
              (fun s => s.user_id == some user.id))
            (applyCharUpsert st1.chars linked)).2, ?_, ?_⟩
      · simp [afterGuildsPhase, hl, hce, List.append_assoc]
      · intro e he
        rcases List.mem_append.mp he with h | h
        · simp only [List.mem_cons, List.not_mem_nil, or_false] at h
          rcases h with h | h
          · exact Or.inl (by rw [h, hlinked])
          · exact Or.inr (Or.inl h)
        · rw [cleanupLoop_events] at h
          rcases List.mem_map.mp h with ⟨x, hx, heq⟩
          exact Or.inr (Or.inr ⟨user.id, x.name, x.realm_slug, x.region, heq.symm⟩)

/-- Any write event the run puts on the trace exists only when the
account payload was decoded and the per-character loop completed, and
is the guild batch of the deduplicated built guildRows, the character
batch of the built charRows with null guild ids, or a delete. -/
theorem run_write_events (cfg : Config) (inp : RunInput) (st : Store) :
    ∀ e ∈ (fetchProfileRun cfg inp st).2.2, isWriteEvent e = true →
      ∃ (user : UserRec) (accounts : List WowAccount)
        (built : List CharRow × List GuildRow × List Event),
        inp.account = .ok accounts ∧
        buildRows cfg inp.detail user.id (allCharsOf accounts) = .ok built ∧
        (e = Event.upsertGuilds (dedupeGuilds built.2.1) ∨
         e = Event.upsertChars (built.1.map (fun c => { c with guild_id := none })) ∨
         ∃ u n r g, e = Event.deleteChar u n r g) := by
  intro e he hw
  simp only [fetchProfileRun] at he
  split at he
  · simp at he
  · split at he
    · simp only [List.mem_singleton] at he
      subst he
      exact absurd hw (by simp [isWriteEvent])
    · rename_i user hlk
      split at he
      · simp only [List.mem_cons, List.not_mem_nil, or_false] at he
        rcases he with h | h <;> subst h <;> exact absurd hw (by simp [isWriteEvent])
      · simp only [List.mem_cons, List.not_mem_nil, or_false] at he
        rcases he with h | h <;> subst h <;> exact absurd hw (by simp [isWriteEvent])
      · rename_i accounts hacc
        split at he
        · rename_i devs hbre
          simp only [List.mem_cons] at he
          rcases he with h | h | h
          · subst h; exact absurd hw (by simp [isWriteEvent])
          · subst h; exact absurd hw (by simp [isWriteEvent])
          · rcases buildRows_error_events_shape cfg inp.detail user.id
              (allCharsOf accounts) devs hbre _ h with ⟨r2, n2, h2⟩
            subst h2; exact absurd hw (by simp [isWriteEvent])
        · rename_i built hbr
          refine ⟨user, accounts, built, hacc, hbr, ?_⟩
          split at he
          · rcases afterGuildsPhase_trace cfg inp user (allCharsOf accounts)
              built.1 built.2.1 []
              (Event.selectUser :: Event.fetchAccount :: built.2.2) st []
              with ⟨tail, htr, htail⟩
            rw [htr] at he
            rcases List.mem_append.mp he with h | h
            · rw [List.append_nil] at h
              simp only [List.mem_cons] at h
              rcases h with h | h | h
              · subst h; exact absurd hw (by simp [isWriteEvent])
              · subst h; exact absurd hw (by simp [isWriteEvent])
              · rcases buildRows_ok_events_shape cfg inp.detail user.id
                  (allCharsOf accounts) built hbr _ h with ⟨r2, n2, h2⟩
                subst h2; exact absurd hw (by simp [isWriteEvent])
            · rcases htail e h with h | h | h
              · exact Or.inr (Or.inl h)
              · subst h; exact absurd hw (by simp [isWriteEvent])
              · exact Or.inr (Or.inr h)
          · split at he
            · simp only [List.mem_append, List.mem_cons, List.mem_singleton,
                List.not_mem_nil, or_false] at he
              rcases he with (h | h | h) | h
              · subst h; exact absurd hw (by simp [isWriteEvent])
              · subst h; exact absurd hw (by simp [isWriteEvent])
              · rcases buildRows_ok_events_shape cfg inp.detail user.id
                  (allCharsOf accounts) built hbr _ h with ⟨r2, n2, h2⟩
                subst h2; exact absurd hw (by simp [isWriteEvent])
              · exact Or.inl h
            · rcases afterGuildsPhase_trace cfg inp user (allCharsOf accounts)
                built.1 built.2.1
                (buildGuildIdMap (upsertGuildsBatch st (dedupeGuilds built.2.1)).2)
                (Event.selectUser :: Event.fetchAccount :: built.2.2)
                (upsertGuildsBatch st (dedupeGuilds built.2.1)).1
                [Event.upsertGuilds (dedupeGuilds built.2.1)]
                with ⟨tail, htr, htail⟩
              rw [htr] at he
              rcases List.mem_append.mp he with h | h
              · rcases List.mem_append.mp h with h | h
                · simp only [List.mem_cons] at h
                  rcases h with h | h | h
                  · subst h; exact absurd hw (by simp [isWriteEvent])
                  · subst h; exact absurd hw (by simp [isWriteEvent])
                  · rcases buildRows_ok_events_shape cfg inp.detail user.id
                      (allCharsOf accounts) built hbr _ h with ⟨r2, n2, h2⟩
                    subst h2; exact absurd hw (by simp [isWriteEvent])
                · simp only [List.mem_singleton] at h
                  exact Or.inl h
              · rcases htail e h with h | h | h
                · exact Or.inr (Or.inl h)
                · subst h; exact absurd hw (by simp [isWriteEvent])
                · exact Or.inr (Or.inr h)

/-- C10.  Every guild row and every character row placed on a batch
upsert in a run carries the configured region, whatever regions the
account summaries themselves report, and the cleanup roster key set is
built from the configured region as well. -/
theorem claim10_region_uniform (cfg : Config) (inp : RunInput) (st : Store) :
    (∀ rows, Event.upsertGuilds rows ∈ (fetchProfileRun cfg inp st).2.2 →
       ∀ g ∈ rows, g.region = cfg.region) ∧
    (∀ rows, Event.upsertChars rows ∈ (fetchProfileRun cfg inp st).2.2 →
       ∀ r ∈ rows, r.region = cfg.region) ∧
    (∀ accounts, inp.account = .ok accounts →
       rosterKeys cfg (allCharsOf accounts) =
         (allCharsOf accounts).map (fun c => joinKey c.name c.realmSlug cfg.region)) := by
  refine ⟨?_, ?_, fun accounts _ => rfl⟩
  · intro rows hmem g hg
    rcases run_write_events cfg inp st _ hmem rfl with
      ⟨user, accounts, built, hacc, hbr, hcase⟩
    rcases hcase with h | h | h
    · injection h with h1
      rw [h1] at hg
      exact buildRows_ok_guilds_region cfg inp.detail user.id (allCharsOf accounts)
        built hbr g (dedupeGuilds_mem _ g hg)
    · exact Event.noConfusion h
    · rcases h with ⟨u, n, r2, g2, h⟩
      exact Event.noConfusion h
  · intro rows hmem r hr
    rcases run_write_events cfg inp st _ hmem rfl with
      ⟨user, accounts, built, hacc, hbr, hcase⟩
    rcases hcase with h | h | h
    · exact Event.noConfusion h
    · injection h with h1
      rw [h1] at hr
      rcases List.mem_map.mp hr with ⟨c, hc, hceq⟩
      rw [buildRows_ok_fst cfg inp.detail user.id (allCharsOf accounts) built hbr] at hc
      rcases List.mem_map.mp hc with ⟨cs, hcs, hcseq⟩
      rw [← hceq, ← hcseq]
      rfl
    · rcases h with ⟨u, n, r2, g2, h⟩
      exact Event.noConfusion h

/-- C10 witness: at a concrete run, the guild row and the character row
actually placed on the two batch upserts carry the configured region. -/
theorem claim10_witness :
    (({ name := "Horde Vanguard", realm_slug := "icecrown", region := "us" } : GuildRow).region
      = cfgUS.region) ∧
    ((mkCharRow cfgUS "u1" thrallSummary).region = cfgUS.region) := by
  constructor
  · exact (claim10_region_uniform cfgUS inp1x st1x).1
      [{ name := "Horde Vanguard", realm_slug := "icecrown", region := "us" }]
      (by decide) _ (by decide)
  · exact (claim10_region_uniform cfgUS inp1x st1x).2.1
      [mkCharRow cfgUS "u1" thrallSummary] (by decide) _ (by decide)

end GuildCentral
